import Mathlib

/-!
Verification development for the helper module of a static-analysis library
(source: src/astroid/helpers.py).  The module is shallowly embedded: each
Python function becomes a Lean function over explicit data.

Modelling conventions:
- A lazy inference sequence (the value of a generator such as
  node.infer(...)) is embedded as the finite list of values it yields
  followed by how it terminates: clean exhaustion (StopIteration on the
  next draw) or an InferenceError raised by the producer.  Claims only
  concern inputs on which the external collaborators terminate, so the
  finite model is faithful on that domain.
- Uncaught Python exceptions are made explicit with an Except result type.
- The per-class memoization attribute written by has_known_bases is an
  explicit association list threaded through the computation, together
  with a counter of base resolutions (traversals) so that the absence of
  re-traversal on a cache hit is observable.
-/

namespace AstroidHelpers

/-- Identity of a ClassDef node in the analysed tree.  Python compares these
nodes by object identity, which Nat equality models. -/
abbrev ClassId := Nat

/-- How a lazy candidate sequence ends after its yields: clean termination
(the next draw raises StopIteration) or a failure (the next draw raises
InferenceError). -/
inductive StreamEnd where
  | done
  | error
deriving DecidableEq, Repr

/-- A lazy candidate sequence as consumed by the helpers: the values it
yields, in order, and how it terminates afterwards. -/
structure InferSeq (α : Type) where
  yields : List α
  final : StreamEnd
deriving DecidableEq, Repr

/-- Python exceptions that can escape or be caught inside the helpers. -/
inductive Exn where
  | stopIteration
  | inferenceError
  | recursionError
deriving DecidableEq, Repr

/-- Embedding of safe_infer (helpers.py lines 97-114).  The first draw is
guarded only against InferenceError, so a sequence that terminates cleanly
with zero yields raises StopIteration out of the function.  After one value,
a second clean draw returns the value (StopIteration caught), a second
yielded value or an InferenceError returns None (ambiguity). -/
def safe_infer {α : Type} (s : InferSeq α) : Except Exn (Option α) :=
  match s.yields, s.final with
  | [], StreamEnd.error => Except.ok none
  | [], StreamEnd.done => Except.error Exn.stopIteration
  | [v], StreamEnd.done => Except.ok (some v)
  | [_], StreamEnd.error => Except.ok none
  | _ :: _ :: _, _ => Except.ok none

/-- The function-like runtime values dispatched by _function_type.  A lambda
or plain function node records whether its root scope is the builtins
module; bound and unbound method values carry no further data used here. -/
inductive FuncValue where
  | lambdaVal (rootBuiltins : Bool)
  | boundMethod
  | unboundMethod
deriving DecidableEq, Repr

/-- An inferred runtime value as dispatched by _object_type and
has_known_bases: a class definition, a function-like value, a module, or
any other instance carrying the class it is proxied against. -/
inductive Value where
  | classVal (c : ClassId)
  | funcVal (f : FuncValue)
  | moduleVal
  | instanceVal (proxied : ClassId)
deriving DecidableEq, Repr

/-- Static data of a ClassDef node as read by the helpers: the inference
sequence of each declared base expression, the newstyle flag, the optional
metaclass, and the result of the resolution-order computation.
Modelled from the spec: metaclass() and the mro()/resolutionOrder()
computation are external collaborators of this module (they live outside
the given source file), so they are embedded as data; a mro field of none
models the inconsistent-linearization failure (MroError). -/
structure KClass where
  bases : List (InferSeq Value)
  newstyle : Bool
  metaclass : Option ClassId
  mro : Option (List ClassId)

/-- The analysed world: the class data reachable from each ClassId, plus the
identity of the builtins type descriptor returned by the registry lookup
used in _object_type. -/
structure Env where
  classes : ClassId → KClass
  typeClass : ClassId

/-- Embedding of _function_type (helpers.py lines 43-59): the proxy class
name chosen for a function-like value.  The py2 flag is the six.PY2 test;
Python 3 semantics is py2 = false. -/
def _function_type (py2 : Bool) : FuncValue → String
  | FuncValue.lambdaVal rootBuiltins =>
      if rootBuiltins then "builtin_function_or_method" else "function"
  | FuncValue.boundMethod => if py2 then "instancemethod" else "method"
  | FuncValue.unboundMethod => if py2 then "instancemethod" else "function"

/-- A classification result produced for one inferred candidate: either an
existing class node (a metaclass, the builtins type descriptor, or the
class an instance is proxied against), or a synthetic proxy class built on
demand by _build_proxy_class.  Each proxy construction yields a fresh node,
so the position of the candidate is part of a proxy's identity, exactly as
Python object identity distinguishes two proxies of the same name. -/
inductive TypeResult where
  | cls (c : ClassId)
  | proxy (name : String) (pos : Nat)
deriving DecidableEq, Repr

/-- The classification of one inferred candidate, as performed inside the
loop of _object_type (helpers.py lines 67-75): a ClassDef maps to its
metaclass or else the builtins type descriptor, function-like values map
through _function_type, a module maps to a fresh module proxy, and any
other instance maps to the class it is proxied against. -/
def classifyOne (env : Env) (py2 : Bool) (pos : Nat) : Value → TypeResult
  | Value.classVal c => TypeResult.cls (((env.classes c).metaclass).getD env.typeClass)
  | Value.funcVal f => TypeResult.proxy (_function_type py2 f) pos
  | Value.moduleVal => TypeResult.proxy "module" pos
  | Value.instanceVal p => TypeResult.cls p

/-- Embedding of the generator _object_type (helpers.py lines 62-75) on the
values the node's inference yields before terminating. -/
def _object_type (env : Env) (py2 : Bool) (l : List Value) : List TypeResult :=
  l.mapIdx (fun pos v => classifyOne env py2 pos v)

/-- Embedding of object_type (helpers.py lines 78-94).  An InferenceError
raised at any point while the classification set is being collected is
caught and converted to the Unknown sentinel util.YES (none here); a set
with exactly one member is returned, any other size gives util.YES. -/
def object_type (env : Env) (py2 : Bool) (s : InferSeq Value) : Option TypeResult :=
  match s.final with
  | StreamEnd.error => none
  | StreamEnd.done =>
    match (_object_type env py2 s.yields).dedup with
    | [t] => some t
    | _ => none

/-- A two-class environment used for concrete evaluations: class 0 (Base)
declares no bases; class 1 (Derived) declares the single base expression
that infers to class 0.  Both are newstyle and their resolution orders
follow the specified convention of ending in the class itself. -/
def baseK : KClass :=
  { bases := [], newstyle := true, metaclass := none, mro := some [0] }

/-- Class data of Derived in the two-class environment. -/
def derivedK : KClass :=
  { bases := [InferSeq.mk [Value.classVal 0] StreamEnd.done],
    newstyle := true, metaclass := none, mro := some [0, 1] }

/-- The two-class environment Base (0) and Derived (1). -/
def envDB : Env :=
  { classes := fun k => match k with | 1 => derivedK | _ => baseK,
    typeClass := 0 }

/-- The mutable state read and written by has_known_bases: the per-class
memoization slots (the _all_bases_known attribute, an association list from
class identity to the cached boolean, where an absent entry models the
AttributeError path), and a counter of base resolutions performed, so that
the absence of re-traversal on a cache hit is observable. -/
structure HkbSt where
  cache : List (ClassId × Bool)
  traversals : Nat
deriving DecidableEq, Repr

/-- Write the memoization slot of class k (the assignment to the
_all_bases_known attribute). -/
def setKnown (st : HkbSt) (k : ClassId) (b : Bool) : HkbSt :=
  HkbSt.mk ((k, b) :: st.cache) st.traversals

/-- Count one base resolution (one call to safe_infer on a base node). -/
def tick (st : HkbSt) : HkbSt := HkbSt.mk st.cache (st.traversals + 1)

/-- The loop body of has_known_bases (helpers.py lines 123-132) over the
remaining base expressions, parameterised by the recursive call.  Each base
is resolved with safe_infer (counted by tick); the loop returns False and
memoizes False as soon as a base does not resolve to a ClassDef, resolves
to the class itself, or resolves to a class whose own bases are not known;
when the list is exhausted it memoizes and returns True.  Exceptions from
safe_infer or from the recursive call propagate. -/
def hkbBases (recur : ClassId → HkbSt → Except Exn (Bool × HkbSt)) (k : ClassId) :
    List (InferSeq Value) → HkbSt → Except Exn (Bool × HkbSt)
  | [], st => Except.ok (true, setKnown st k true)
  | b :: rest, st =>
    match safe_infer b with
    | Except.error e => Except.error e
    | Except.ok none => Except.ok (false, setKnown (tick st) k false)
    | Except.ok (some v) =>
      match v with
      | Value.classVal c =>
        if c = k then Except.ok (false, setKnown (tick st) k false)
        else
          match recur c (tick st) with
          | Except.error e => Except.error e
          | Except.ok (known, st2) =>
            if known then hkbBases recur k rest st2
            else Except.ok (false, setKnown st2 k false)
      | Value.funcVal _ => Except.ok (false, setKnown (tick st) k false)
      | Value.moduleVal => Except.ok (false, setKnown (tick st) k false)
      | Value.instanceVal _ => Except.ok (false, setKnown (tick st) k false)

/-- Embedding of has_known_bases (helpers.py lines 117-132).  The memoized
slot is consulted first (the try/except AttributeError); on a miss the base
list is traversed.  The fuel argument bounds the recursion depth, modelling
the Python call stack: exhausting it is the RecursionError of a
non-terminating recursion and never happens on inputs where the original
function terminates. -/
def has_known_bases (env : Env) : Nat → ClassId → HkbSt → Except Exn (Bool × HkbSt)
  | 0, _, _ => Except.error Exn.recursionError
  | fuel + 1, k, st =>
    match st.cache.lookup k with
    | some b => Except.ok (b, st)
    | none => hkbBases (fun c st2 => has_known_bases env fuel c st2) k
        (env.classes k).bases st

/-- The four-part pass condition of has_known_bases, as a least fixed
point: a class is Known when every declared base safely infers to a single
definite value that is a ClassDef, is not the class itself, and is in turn
Known. -/
inductive Known (env : Env) : ClassId → Prop where
  | intro (k : ClassId) (w : InferSeq Value → ClassId)
      (hres : ∀ b ∈ (env.classes k).bases,
        safe_infer b = Except.ok (some (Value.classVal (w b))))
      (hne : ∀ b ∈ (env.classes k).bases, w b ≠ k)
      (hrec : ∀ b ∈ (env.classes k).bases, Known env (w b)) :
      Known env k

/-- Every base expression in the list passes the four checks of
has_known_bases for class k. -/
def PassList (env : Env) (k : ClassId) (l : List (InferSeq Value)) : Prop :=
  ∀ b ∈ l, ∃ c,
    safe_infer b = Except.ok (some (Value.classVal c)) ∧ c ≠ k ∧ Known env c

/-- Every memoized slot holds the truth value of the Known predicate: the
cache is coherent with the recursion it memoizes. -/
def CacheOK (env : Env) (st : HkbSt) : Prop :=
  ∀ k b, st.cache.lookup k = some b → (b = true ↔ Known env k)

/-- Embedding of _type_check (helpers.py lines 135-145).  A result of none
is the Unknown sentinel util.YES, some b a definite boolean.  The two
has_known_bases calls run left to right (the lazy all over map), and an
exception from either propagates.  With both sets of bases known, a legacy
(non-newstyle) operand gives False; otherwise membership of type1 in
type2's resolution order with its final entry dropped decides, and a
failed resolution-order computation (MroError) gives util.YES. -/
def _type_check (env : Env) (fuel : Nat) (type1 type2 : ClassId)
    (st : HkbSt) : Except Exn (Option Bool × HkbSt) :=
  match has_known_bases env fuel type1 st with
  | Except.error e => Except.error e
  | Except.ok (false, st2) => Except.ok (none, st2)
  | Except.ok (true, st2) =>
    match has_known_bases env fuel type2 st2 with
    | Except.error e => Except.error e
    | Except.ok (false, st3) => Except.ok (none, st3)
    | Except.ok (true, st3) =>
      if (env.classes type1).newstyle && (env.classes type2).newstyle then
        match (env.classes type2).mro with
        | none => Except.ok (none, st3)
        | some l => Except.ok (some (decide (type1 ∈ l.dropLast)), st3)
      else Except.ok (some false, st3)

/-- Embedding of is_subtype (helpers.py lines 148-150): the internal check
with the operands swapped. -/
def is_subtype (env : Env) (fuel : Nat) (type1 type2 : ClassId)
    (st : HkbSt) : Except Exn (Option Bool × HkbSt) :=
  _type_check env fuel type2 type1 st

/-- Embedding of is_supertype (helpers.py lines 153-155): the internal
check in operand order. -/
def is_supertype (env : Env) (fuel : Nat) (type1 type2 : ClassId)
    (st : HkbSt) : Except Exn (Option Bool × HkbSt) :=
  _type_check env fuel type1 type2 st

/-- Forget the threaded memoization state of a subtype query, keeping only
the answer: util.YES (none) or the definite boolean. -/
def tcResult (x : Except Exn (Option Bool × HkbSt)) : Except Exn (Option Bool) :=
  x.map Prod.fst

/-- Modelled from the spec: the resolution-order computation (mro) is an
external collaborator whose implementation is outside the given source
file.  Per the specification, when it succeeds it produces an ordered
sequence of the class and all its ancestors, itself ending in the class,
each class appearing once (a total ordering). -/
def ValidResolutionOrder (env : Env) (k : ClassId) : Prop :=
  ∀ l, (env.classes k).mro = some l → l.getLast? = some k ∧ l.Nodup

/-- A class whose single declared base expression yields no candidates and
terminates cleanly: the shape on which safe_infer raises StopIteration. -/
def emptyBaseK : KClass :=
  { bases := [InferSeq.mk ([] : List Value) StreamEnd.done],
    newstyle := true, metaclass := none, mro := some [0] }

/-- An environment holding the empty-clean-base class at every identity. -/
def env9 : Env := { classes := fun _ => emptyBaseK, typeClass := 0 }

/-- A literal value held by a Const node, as tested by
class_instance_as_index. -/
inductive ConstVal where
  | intV (n : Int)
  | boolV (b : Bool)
  | strV (s : String)
  | noneV
deriving DecidableEq, Repr

/-- The integer test of class_instance_as_index: isinstance(value, int).
A bool passes, being an int subclass in Python. -/
def isIntValue : ConstVal → Bool
  | ConstVal.intV _ => true
  | ConstVal.boolV _ => true
  | _ => false

/-- One candidate produced by resolving the call of a protocol method: a
Const node holding a literal, or any other inferred value. -/
inductive CallResult where
  | constV (v : ConstVal)
  | otherV
deriving DecidableEq, Repr

/-- One candidate of the attribute lookup on the protocol method name: a
bound method together with its lazy call-result sequence, or any other
value, which the loop skips. -/
inductive IndexCand where
  | boundMethod (results : InferSeq CallResult)
  | notMethod
deriving DecidableEq, Repr

/-- The inner loop of class_instance_as_index over the yielded call
results of one bound method: the first Const holding an int is returned. -/
def indexFromResults : List CallResult → Option ConstVal
  | [] => none
  | CallResult.constV v :: rest =>
      if isIntValue v then some v else indexFromResults rest
  | CallResult.otherV :: rest => indexFromResults rest

/-- The outer loop of class_instance_as_index over the attribute
candidates.  A bound method whose scanned results contain no int and whose
result sequence then raises InferenceError aborts the whole search (the
exception is caught by the surrounding try, producing None); a cleanly
exhausted method sequence moves on to the next attribute candidate. -/
def indexSearch : List IndexCand → Option ConstVal
  | [] => none
  | IndexCand.notMethod :: rest => indexSearch rest
  | IndexCand.boundMethod rs :: rest =>
    match indexFromResults rs.yields with
    | some v => some v
    | none =>
      match rs.final with
      | StreamEnd.error => none
      | StreamEnd.done => indexSearch rest

/-- Embedding of class_instance_as_index (helpers.py lines 158-178) on the
candidate sequence yielded by the attribute lookup of the protocol method
name on the instance.  The final state of the outer sequence is irrelevant
to the result: after the last candidate, a clean end leaves the loop and a
raised InferenceError is caught, and either way the source returns None
implicitly. -/
def class_instance_as_index (attr : InferSeq IndexCand) : Option ConstVal :=
  indexSearch attr.yields

/-- An attribute candidate whose call-result sequence terminates cleanly
(trivially true for candidates that are not bound methods). -/
def cleanCand : IndexCand → Bool
  | IndexCand.boundMethod rs =>
      match rs.final with
      | StreamEnd.done => true
      | StreamEnd.error => false
  | IndexCand.notMethod => true

/-- Modelled from the spec: the first call-result candidate, enumerating
the attribute candidates in order, skipping those that are not bound
methods and enumerating each bound method's call results in order, that is
a literal constant holding an integer. -/
def specResolveIndexValue : List IndexCand → Option ConstVal
  | [] => none
  | IndexCand.notMethod :: rest => specResolveIndexValue rest
  | IndexCand.boundMethod rs :: rest =>
    match indexFromResults rs.yields with
    | some v => some v
    | none => specResolveIndexValue rest

end AstroidHelpers

namespace AstroidHelpers

/-- C3 evidence: behaviour of safe_infer on each terminating shape of the
candidate sequence.  A sequence that fails before the first yield gives
None; exactly one yield with clean termination gives the value; two or more
yields give None; but a sequence that terminates cleanly with zero yields
raises StopIteration instead of returning None. -/
theorem safe_infer_cases :
    safe_infer (InferSeq.mk ([] : List Value) StreamEnd.done)
      = Except.error Exn.stopIteration ∧
    safe_infer (InferSeq.mk ([] : List Value) StreamEnd.error)
      = Except.ok none ∧
    (∀ v : Value, safe_infer (InferSeq.mk [v] StreamEnd.done)
      = Except.ok (some v)) ∧
    (∀ (v w : Value) (rest : List Value) (fin : StreamEnd),
      safe_infer (InferSeq.mk (v :: w :: rest) fin) = Except.ok none) := by
  refine ⟨rfl, rfl, fun v => rfl, fun v w rest fin => rfl⟩

/-- C10: a sequence that yields exactly one value and then raises an
inference failure on the second draw makes safe_infer return None, not the
yielded value: failure after the first yield is treated as ambiguity. -/
theorem safe_infer_one_then_error (v : Value) :
    safe_infer (InferSeq.mk [v] StreamEnd.error) = Except.ok none := rfl

/-- C4: object_type returns the single member of the set of distinct
classification results computed over all inferred candidates when that set
has exactly one element, and returns the Unknown sentinel (none, util.YES
in the source) when the set is empty, has two or more distinct members, or
when inference of the node fails. -/
theorem object_type_unique_or_unknown (env : Env) (py2 : Bool)
    (s : InferSeq Value) (t : TypeResult) :
    (s.final = StreamEnd.done → (_object_type env py2 s.yields).dedup = [t] →
      object_type env py2 s = some t) ∧
    (s.final = StreamEnd.done → (_object_type env py2 s.yields).dedup = [] →
      object_type env py2 s = none) ∧
    (s.final = StreamEnd.done → 2 ≤ (_object_type env py2 s.yields).dedup.length →
      object_type env py2 s = none) ∧
    (s.final = StreamEnd.error → object_type env py2 s = none) := by
  refine ⟨fun hdone hsing => ?_, fun hdone hnil => ?_,
    fun hdone hlen => ?_, fun herr => ?_⟩
  · simp [object_type, hdone, hsing]
  · simp [object_type, hdone, hnil]
  · rcases hl : (_object_type env py2 s.yields).dedup with _ | ⟨a, _ | ⟨b, l2⟩⟩
    · simp [object_type, hdone, hl]
    · rw [hl] at hlen; simp at hlen
    · simp [object_type, hdone, hl]
  · simp [object_type, herr]

/-- C4 witness: on a node inferring exactly one plain function value the
classification set is the singleton function proxy, which object_type
returns. -/
theorem object_type_unique_or_unknown_witness :
    object_type envDB false
        (InferSeq.mk [Value.funcVal (FuncValue.lambdaVal false)] StreamEnd.done)
      = some (TypeResult.proxy "function" 0) :=
  (object_type_unique_or_unknown envDB false
      (InferSeq.mk [Value.funcVal (FuncValue.lambdaVal false)] StreamEnd.done)
      (TypeResult.proxy "function" 0)).1 rfl (by decide)

/-- C8: a function-like candidate whose root scope is the builtins module
classifies to the proxy named builtin_function_or_method, any other lambda
or plain function to the proxy named function, a bound method to the proxy
named method, and an unbound method to the proxy named function (Python 3
naming: the six.PY2 flag is false). -/
theorem function_type_names (env : Env) :
    (object_type env false
        (InferSeq.mk [Value.funcVal (FuncValue.lambdaVal true)] StreamEnd.done)
      = some (TypeResult.proxy "builtin_function_or_method" 0)) ∧
    (object_type env false
        (InferSeq.mk [Value.funcVal (FuncValue.lambdaVal false)] StreamEnd.done)
      = some (TypeResult.proxy "function" 0)) ∧
    (object_type env false
        (InferSeq.mk [Value.funcVal FuncValue.boundMethod] StreamEnd.done)
      = some (TypeResult.proxy "method" 0)) ∧
    (object_type env false
        (InferSeq.mk [Value.funcVal FuncValue.unboundMethod] StreamEnd.done)
      = some (TypeResult.proxy "function" 0)) := by
  refine ⟨rfl, rfl, rfl, rfl⟩

/-- Unfolding of the Known predicate into the per-base pass condition. -/
theorem known_iff (env : Env) (k : ClassId) :
    Known env k ↔ PassList env k (env.classes k).bases := by
  constructor
  · intro hk
    cases hk with
    | intro k w hres hne hrec =>
      intro b hb
      exact ⟨w b, hres b hb, hne b hb, hrec b hb⟩
  · intro hp
    refine Known.intro k
      (fun b => if hb : b ∈ (env.classes k).bases then (hp b hb).choose else 0)
      ?_ ?_ ?_
    · intro b hb
      dsimp only
      rw [dif_pos hb]
      exact (hp b hb).choose_spec.1
    · intro b hb
      dsimp only
      rw [dif_pos hb]
      exact (hp b hb).choose_spec.2.1
    · intro b hb
      dsimp only
      rw [dif_pos hb]
      exact (hp b hb).choose_spec.2.2

/-- Looking up the slot just written returns the written value. -/
theorem lookup_setKnown_self (st : HkbSt) (k : ClassId) (b : Bool) :
    (setKnown st k b).cache.lookup k = some b := by
  simp [setKnown, List.lookup]

/-- Writing one slot leaves the others unchanged. -/
theorem lookup_setKnown_ne (st : HkbSt) (k k2 : ClassId) (b : Bool) (h : k2 ≠ k) :
    (setKnown st k b).cache.lookup k2 = st.cache.lookup k2 := by
  have hb : (k2 == k) = false := beq_eq_false_iff_ne.mpr h
  simp [setKnown, List.lookup, hb]

/-- The traversal counter does not touch the memoization slots. -/
theorem cacheOK_tick (env : Env) (st : HkbSt) (hok : CacheOK env st) :
    CacheOK env (tick st) := hok

/-- Writing a slot with the truth value of Known keeps the cache coherent. -/
theorem cacheOK_setKnown (env : Env) (st : HkbSt) (k : ClassId) (b : Bool)
    (hok : CacheOK env st) (hb : b = true ↔ Known env k) :
    CacheOK env (setKnown st k b) := by
  intro k2 b2 hl
  by_cases hk : k2 = k
  · subst hk
    rw [lookup_setKnown_self] at hl
    injection hl with hl2
    subst hl2
    exact hb
  · rw [lookup_setKnown_ne st k k2 b hk] at hl
    exact hok k2 b2 hl

/-- Every successful run of the base loop leaves the memoization slot of the
class set to the returned boolean. -/
theorem hkbBases_sets (recur : ClassId → HkbSt → Except Exn (Bool × HkbSt))
    (k : ClassId) :
    ∀ (l : List (InferSeq Value)) (st : HkbSt) (r : Bool) (st2 : HkbSt),
      hkbBases recur k l st = Except.ok (r, st2) →
      st2.cache.lookup k = some r := by
  intro l
  induction l with
  | nil =>
    intro st r st2 h
    simp only [hkbBases, Except.ok.injEq, Prod.mk.injEq] at h
    obtain ⟨hr, hst⟩ := h
    subst hr
    subst hst
    exact lookup_setKnown_self st k true
  | cons b rest ih =>
    intro st r st2 h
    rcases hsi : safe_infer b with e | o
    · simp [hkbBases, hsi] at h
    · rcases o with _ | v
      · simp only [hkbBases, hsi, Except.ok.injEq, Prod.mk.injEq] at h
        obtain ⟨hr, hst⟩ := h
        subst hr
        subst hst
        exact lookup_setKnown_self _ k false
      · rcases v with c | f | _ | p
        · by_cases hck : c = k
          · simp only [hkbBases, hsi, hck, if_pos, Except.ok.injEq,
              Prod.mk.injEq] at h
            obtain ⟨hr, hst⟩ := h
            subst hr
            subst hst
            exact lookup_setKnown_self _ k false
          · simp only [hkbBases, hsi, hck, if_neg] at h
            rcases hrec2 : recur c (tick st) with e2 | p2
            · simp [hrec2] at h
            · rcases p2 with ⟨known, st3⟩
              rw [hrec2] at h
              cases known with
              | true =>
                simp only [if_pos] at h
                exact ih st3 r st2 h
              | false =>
                simp only [Bool.false_eq_true, if_neg, Except.ok.injEq,
                  Prod.mk.injEq, not_false_eq_true] at h
                obtain ⟨hr, hst⟩ := h
                subst hr
                subst hst
                exact lookup_setKnown_self _ k false
        · simp only [hkbBases, hsi, Except.ok.injEq, Prod.mk.injEq] at h
          obtain ⟨hr, hst⟩ := h
          subst hr
          subst hst
          exact lookup_setKnown_self _ k false
        · simp only [hkbBases, hsi, Except.ok.injEq, Prod.mk.injEq] at h
          obtain ⟨hr, hst⟩ := h
          subst hr
          subst hst
          exact lookup_setKnown_self _ k false
        · simp only [hkbBases, hsi, Except.ok.injEq, Prod.mk.injEq] at h
          obtain ⟨hr, hst⟩ := h
          subst hr
          subst hst
          exact lookup_setKnown_self _ k false

/-- Every successful call of has_known_bases leaves the memoization slot of
the queried class holding the returned boolean. -/
theorem has_known_bases_sets (env : Env) (fuel : Nat) (k : ClassId)
    (st : HkbSt) (r : Bool) (st2 : HkbSt)
    (h : has_known_bases env fuel k st = Except.ok (r, st2)) :
    st2.cache.lookup k = some r := by
  cases fuel with
  | zero => simp [has_known_bases] at h
  | succ fuel =>
    rcases hl : st.cache.lookup k with _ | b
    · simp only [has_known_bases, hl] at h
      exact hkbBases_sets _ k _ st r st2 h
    · simp only [has_known_bases, hl, Except.ok.injEq, Prod.mk.injEq] at h
      obtain ⟨hr, hst⟩ := h
      subst hr
      subst hst
      exact hl

/-- A call that finds the memoized slot set returns the cached boolean with
the state unchanged: no base is resolved again. -/
theorem has_known_bases_cache_hit (env : Env) (fuel : Nat) (k : ClassId)
    (st : HkbSt) (b : Bool) (hl : st.cache.lookup k = some b)
    (hf : 1 ≤ fuel) :
    has_known_bases env fuel k st = Except.ok (b, st) := by
  cases fuel with
  | zero => exact absurd hf (by decide)
  | succ fuel => simp [has_known_bases, hl]

/-- A class one of whose bases fails the pass condition is not Known. -/
theorem not_known_of_base_fails (env : Env) (k : ClassId) (b : InferSeq Value)
    (hb : b ∈ (env.classes k).bases)
    (hfail : ∀ c, safe_infer b = Except.ok (some (Value.classVal c)) → c ≠ k →
      ¬Known env c) :
    ¬Known env k := by
  intro hk
  rw [known_iff] at hk
  obtain ⟨c, hc, hne, hkc⟩ := hk b hb
  exact hfail c hc hne hkc

/-- Soundness of the base loop under a coherent cache: a successful run
returns the truth value of Known for the class (given that the bases
already consumed passed their checks) and preserves cache coherence. -/
theorem hkbBases_sound (env : Env) (fuel : Nat)
    (IH : ∀ (c : ClassId) (st : HkbSt) (r : Bool) (st2 : HkbSt),
      CacheOK env st → has_known_bases env fuel c st = Except.ok (r, st2) →
      CacheOK env st2 ∧ (r = true ↔ Known env c)) (k : ClassId) :
    ∀ (l pre : List (InferSeq Value)) (st : HkbSt) (r : Bool) (st2 : HkbSt),
      CacheOK env st → (env.classes k).bases = pre ++ l → PassList env k pre →
      hkbBases (fun c st3 => has_known_bases env fuel c st3) k l st
        = Except.ok (r, st2) →
      CacheOK env st2 ∧ (r = true ↔ Known env k) := by
  intro l
  induction l with
  | nil =>
    intro pre st r st2 hok hsplit hpre h
    simp only [hkbBases, Except.ok.injEq, Prod.mk.injEq] at h
    obtain ⟨hr, hst⟩ := h
    subst hr
    subst hst
    have hknown : Known env k := by
      rw [known_iff, hsplit, List.append_nil]
      exact hpre
    exact ⟨cacheOK_setKnown env st k true hok (by simp [hknown]),
      by simp [hknown]⟩
  | cons b rest ih =>
    intro pre st r st2 hok hsplit hpre h
    have hbmem : b ∈ (env.classes k).bases := by
      rw [hsplit]
      exact List.mem_append_right pre (List.mem_cons_self b rest)
    rcases hsi : safe_infer b with e | o
    · simp [hkbBases, hsi] at h
    · rcases o with _ | v
      · simp only [hkbBases, hsi, Except.ok.injEq, Prod.mk.injEq] at h
        obtain ⟨hr, hst⟩ := h
        subst hr
        subst hst
        have hnk : ¬Known env k := not_known_of_base_fails env k b hbmem
          (by intro c hc; rw [hsi] at hc; simp at hc)
        exact ⟨cacheOK_setKnown env (tick st) k false (cacheOK_tick env st hok)
          (by simp [hnk]), by simp [hnk]⟩
      · rcases v with c | f | _ | p
        · by_cases hck : c = k
          · simp only [hkbBases, hsi, hck, if_pos, Except.ok.injEq,
              Prod.mk.injEq] at h
            obtain ⟨hr, hst⟩ := h
            subst hr
            subst hst
            have hnk : ¬Known env k := not_known_of_base_fails env k b hbmem
              (by
                intro c2 hc2 hne2
                rw [hsi] at hc2
                simp only [Except.ok.injEq, Option.some.injEq,
                  Value.classVal.injEq] at hc2
                subst hc2
                exact absurd hck hne2)
            exact ⟨cacheOK_setKnown env (tick st) k false
              (cacheOK_tick env st hok) (by simp [hnk]), by simp [hnk]⟩
          · simp only [hkbBases, hsi] at h
            rw [if_neg hck] at h
            rcases hrec2 : has_known_bases env fuel c (tick st) with e2 | p2
            · simp [hrec2] at h
            · rcases p2 with ⟨known, st3⟩
              obtain ⟨hok3, hkn⟩ :=
                IH c (tick st) known st3 (cacheOK_tick env st hok) hrec2
              cases known with
              | true =>
                simp only [hrec2, if_true, eq_self_iff_true] at h
                refine ih (pre ++ [b]) st3 r st2 hok3 ?_ ?_ h
                · rw [hsplit, List.append_assoc, List.singleton_append]
                · intro b2 hb2
                  rcases List.mem_append.mp hb2 with h2 | h2
                  · exact hpre b2 h2
                  · rw [List.mem_singleton] at h2
                    subst h2
                    exact ⟨c, hsi, hck, hkn.mp rfl⟩
              | false =>
                simp only [hrec2, Bool.false_eq_true, if_false,
                  Except.ok.injEq, Prod.mk.injEq] at h
                obtain ⟨hr, hst⟩ := h
                subst hr
                subst hst
                have hnk : ¬Known env k := not_known_of_base_fails env k b hbmem
                  (by
                    intro c2 hc2 hne2 hkc2
                    rw [hsi] at hc2
                    simp only [Except.ok.injEq, Option.some.injEq,
                      Value.classVal.injEq] at hc2
                    subst hc2
                    exact Bool.false_ne_true (hkn.mpr hkc2))
                exact ⟨cacheOK_setKnown env st3 k false hok3 (by simp [hnk]),
                  by simp [hnk]⟩
        · simp only [hkbBases, hsi, Except.ok.injEq, Prod.mk.injEq] at h
          obtain ⟨hr, hst⟩ := h
          subst hr
          subst hst
          have hnk : ¬Known env k := not_known_of_base_fails env k b hbmem
            (by intro c2 hc2; rw [hsi] at hc2; simp at hc2)
          exact ⟨cacheOK_setKnown env (tick st) k false (cacheOK_tick env st hok)
            (by simp [hnk]), by simp [hnk]⟩
        · simp only [hkbBases, hsi, Except.ok.injEq, Prod.mk.injEq] at h
          obtain ⟨hr, hst⟩ := h
          subst hr
          subst hst
          have hnk : ¬Known env k := not_known_of_base_fails env k b hbmem
            (by intro c2 hc2; rw [hsi] at hc2; simp at hc2)
          exact ⟨cacheOK_setKnown env (tick st) k false (cacheOK_tick env st hok)
            (by simp [hnk]), by simp [hnk]⟩
        · simp only [hkbBases, hsi, Except.ok.injEq, Prod.mk.injEq] at h
          obtain ⟨hr, hst⟩ := h
          subst hr
          subst hst
          have hnk : ¬Known env k := not_known_of_base_fails env k b hbmem
            (by intro c2 hc2; rw [hsi] at hc2; simp at hc2)
          exact ⟨cacheOK_setKnown env (tick st) k false (cacheOK_tick env st hok)
            (by simp [hnk]), by simp [hnk]⟩

/-- Soundness of has_known_bases under a coherent cache: a successful call
returns true exactly when the class satisfies the Known predicate, and
leaves the cache coherent. -/
theorem has_known_bases_sound (env : Env) :
    ∀ (fuel : Nat) (k : ClassId) (st : HkbSt) (r : Bool) (st2 : HkbSt),
      CacheOK env st → has_known_bases env fuel k st = Except.ok (r, st2) →
      CacheOK env st2 ∧ (r = true ↔ Known env k) := by
  intro fuel
  induction fuel with
  | zero =>
    intro k st r st2 hok h
    simp [has_known_bases] at h
  | succ fuel ihf =>
    intro k st r st2 hok h
    rcases hl : st.cache.lookup k with _ | b
    · simp only [has_known_bases, hl] at h
      exact hkbBases_sound env fuel ihf k (env.classes k).bases [] st r st2 hok
        (List.nil_append _).symm (fun b2 hb2 => absurd hb2 (List.not_mem_nil b2)) h
    · simp only [has_known_bases, hl, Except.ok.injEq, Prod.mk.injEq] at h
      obtain ⟨hr, hst⟩ := h
      subst hr
      subst hst
      exact ⟨hok, hok k b hl⟩

/-- C5: a terminating call of has_known_bases on a coherent cache returns
true exactly when every direct base resolves (via safe_infer) to a single
definite value that is a class definition, is not the class itself, and is
in turn recursively Known; it returns false as soon as any direct base
fails one of those four checks, and vacuously returns true for a class
with no declared bases. -/
theorem has_known_bases_four_checks (env : Env) (fuel : Nat) (k : ClassId)
    (st : HkbSt) (r : Bool) (st2 : HkbSt) (hok : CacheOK env st)
    (h : has_known_bases env fuel k st = Except.ok (r, st2)) :
    (r = true ↔ ∀ b ∈ (env.classes k).bases, ∃ c,
      safe_infer b = Except.ok (some (Value.classVal c)) ∧ c ≠ k ∧
        Known env c) ∧
    ((env.classes k).bases = [] → r = true) := by
  have hs := has_known_bases_sound env fuel k st r st2 hok h
  constructor
  · exact hs.2.trans (known_iff env k)
  · intro hnil
    refine hs.2.mpr (Known.intro k (fun _ => 0) ?_ ?_ ?_) <;>
      intro b hb <;> exact absurd (hnil ▸ hb) (List.not_mem_nil b)

/-- C5 witness: class 0 of the two-class environment has no bases, so a
fresh call returns true, and the four-check characterisation holds. -/
theorem has_known_bases_four_checks_witness :
    ((true : Bool) = true ↔ ∀ b ∈ (envDB.classes 0).bases, ∃ c,
      safe_infer b = Except.ok (some (Value.classVal c)) ∧ c ≠ 0 ∧
        Known envDB c) ∧
    ((envDB.classes 0).bases = [] → (true : Bool) = true) :=
  has_known_bases_four_checks envDB 1 0 (HkbSt.mk [] 0) true
    (HkbSt.mk [(0, true)] 0)
    (fun k2 b2 hl => by simp [List.lookup] at hl) rfl

/-- C6: has_known_bases writes its boolean result into the class's
memoization slot before returning, and a later call that finds the slot
set returns the identical cached boolean with the whole state unchanged:
no base is resolved again (the traversal counter does not move) and the
cached value is never recomputed. -/
theorem has_known_bases_memoized (env : Env) (fuel : Nat) (k : ClassId)
    (st : HkbSt) (r b : Bool) (st2 : HkbSt) :
    (has_known_bases env fuel k st = Except.ok (r, st2) →
      st2.cache.lookup k = some r) ∧
    (st.cache.lookup k = some b → 1 ≤ fuel →
      has_known_bases env fuel k st = Except.ok (b, st)) :=
  ⟨fun h => has_known_bases_sets env fuel k st r st2 h,
   fun hl hf => has_known_bases_cache_hit env fuel k st b hl hf⟩

/-- C6 witness: after computing class 0 of the two-class environment the
slot holds true, and a second call returns that cached true with the state
(including the traversal counter) unchanged. -/
theorem has_known_bases_memoized_witness :
    (HkbSt.mk [(0, true)] 0).cache.lookup 0 = some true ∧
    has_known_bases envDB 1 0 (HkbSt.mk [(0, true)] 0)
      = Except.ok (true, HkbSt.mk [(0, true)] 0) :=
  ⟨(has_known_bases_memoized envDB 1 0 (HkbSt.mk [] 0) true true
      (HkbSt.mk [(0, true)] 0)).1 rfl,
   (has_known_bases_memoized envDB 1 0 (HkbSt.mk [(0, true)] 0) true true
      (HkbSt.mk [(0, true)] 0)).2 rfl (by decide)⟩

/-- In a duplicate-free list the last element does not occur before the
last position. -/
theorem not_mem_dropLast_of_getLast (l : List ClassId) (k : ClassId)
    (hlast : l.getLast? = some k) (hnd : l.Nodup) : k ∉ l.dropLast := by
  intro hmem
  have hne : l ≠ [] := by
    intro h0
    subst h0
    simp at hlast
  have hdec : l.dropLast ++ [l.getLast hne] = l := List.dropLast_append_getLast hne
  have hk : l.getLast hne = k := by
    have hq := List.getLast?_eq_getLast l hne
    rw [hq] at hlast
    injection hlast
  rw [← hdec] at hnd
  have hdisj := List.disjoint_of_nodup_append hnd
  exact hdisj hmem (by simp [hk])

/-- C1 counterexample: in the two-class environment where Derived (1)
declares Base (0) as its sole base, the code gives
is_subtype Base Derived = False and is_subtype Derived Base = True, the
opposite of the claimed scenario: the code tests membership of the second
operand in the FIRST operand's resolution order, not the first operand in
the second's. -/
theorem is_subtype_scenario_counterexample :
    tcResult (is_subtype envDB 3 0 1 (HkbSt.mk [] 0))
      = Except.ok (some false) ∧
    tcResult (is_subtype envDB 3 1 0 (HkbSt.mk [] 0))
      = Except.ok (some true) := ⟨rfl, rfl⟩

/-- C1 amended: is_subtype A B is Unknown when either operand's bases are
not fully known, False when bases are known but either operand is not
newstyle, Unknown when A's resolution-order computation fails, and
otherwise True exactly when B appears in A's resolution order with its
final entry dropped.  (has_known_bases runs on B first, then A, as the
swapped internal check does.)  In the two-class scenario this gives
is_subtype Derived Base = True and is_subtype Base Derived = False. -/
theorem is_subtype_characterised (env : Env) (fuel : Nat) (A B : ClassId)
    (st st1 st2 : HkbSt) (kb ka : Bool) (l : List ClassId)
    (hB : has_known_bases env fuel B st = Except.ok (kb, st1))
    (hA : has_known_bases env fuel A st1 = Except.ok (ka, st2)) :
    (kb = false → is_subtype env fuel A B st = Except.ok (none, st1)) ∧
    (kb = true → ka = false →
      is_subtype env fuel A B st = Except.ok (none, st2)) ∧
    (kb = true → ka = true →
      ((env.classes B).newstyle && (env.classes A).newstyle) = false →
      is_subtype env fuel A B st = Except.ok (some false, st2)) ∧
    (kb = true → ka = true →
      ((env.classes B).newstyle && (env.classes A).newstyle) = true →
      (env.classes A).mro = none →
      is_subtype env fuel A B st = Except.ok (none, st2)) ∧
    (kb = true → ka = true →
      ((env.classes B).newstyle && (env.classes A).newstyle) = true →
      (env.classes A).mro = some l →
      is_subtype env fuel A B st
        = Except.ok (some (decide (B ∈ l.dropLast)), st2)) ∧
    tcResult (is_subtype envDB 3 1 0 (HkbSt.mk [] 0))
      = Except.ok (some true) ∧
    tcResult (is_subtype envDB 3 0 1 (HkbSt.mk [] 0))
      = Except.ok (some false) := by
  refine ⟨?_, ?_, ?_, ?_, ?_, rfl, rfl⟩
  · intro hkb
    subst hkb
    simp [is_subtype, _type_check, hB]
  · intro hkb hka
    subst hkb
    subst hka
    simp [is_subtype, _type_check, hB, hA]
  · intro hkb hka hns
    subst hkb
    subst hka
    simp [is_subtype, _type_check, hB, hA, hns]
  · intro hkb hka hns hmro
    subst hkb
    subst hka
    simp [is_subtype, _type_check, hB, hA, hns, hmro]
  · intro hkb hka hns hmro
    subst hkb
    subst hka
    simp [is_subtype, _type_check, hB, hA, hns, hmro]

/-- C1 witness: the characterisation applied in the two-class environment,
where Base (0) appears in Derived (1)'s order with the final entry
dropped, so is_subtype Derived Base evaluates to True. -/
theorem is_subtype_characterised_witness :
    is_subtype envDB 3 1 0 (HkbSt.mk [] 0)
      = Except.ok (some (decide ((0 : ClassId) ∈
          ([0, 1] : List ClassId).dropLast)),
        HkbSt.mk [(1, true), (0, true)] 1) :=
  (is_subtype_characterised envDB 3 1 0 (HkbSt.mk [] 0)
      (HkbSt.mk [(0, true)] 0) (HkbSt.mk [(1, true), (0, true)] 1)
      true true [0, 1] rfl rfl).2.2.2.2.1 rfl rfl rfl rfl

/-- C2: for a class whose bases are fully known, whose newstyle flag is
set, and whose resolution-order computation succeeds with the specified
order contract (the order ends in the class itself and has no duplicates),
is_subtype of the class with itself is False: the membership test drops
the final (self) entry of the order. -/
theorem is_subtype_irreflexive (env : Env) (fuel : Nat) (A : ClassId)
    (st st1 : HkbSt) (l : List ClassId)
    (hA : has_known_bases env fuel A st = Except.ok (true, st1))
    (hns : (env.classes A).newstyle = true)
    (hmro : (env.classes A).mro = some l)
    (hvalid : ValidResolutionOrder env A) :
    is_subtype env fuel A A st = Except.ok (some false, st1) := by
  obtain ⟨hlast, hnd⟩ := hvalid l hmro
  have hnotmem : A ∉ l.dropLast := not_mem_dropLast_of_getLast l A hlast hnd
  have hfuel : 1 ≤ fuel := by
    cases fuel with
    | zero => simp [has_known_bases] at hA
    | succ n => exact Nat.succ_le_succ (Nat.zero_le n)
  have hcache : st1.cache.lookup A = some true :=
    has_known_bases_sets env fuel A st true st1 hA
  have hA2 : has_known_bases env fuel A st1 = Except.ok (true, st1) :=
    has_known_bases_cache_hit env fuel A st1 true hcache hfuel
  simp [is_subtype, _type_check, hA, hA2, hns, hmro, decide_eq_false hnotmem]

/-- C2 witness: class 0 of the two-class environment, whose order is the
singleton of itself, is not a proper subtype of itself. -/
theorem is_subtype_irreflexive_witness :
    is_subtype envDB 1 0 0 (HkbSt.mk [] 0)
      = Except.ok (some false, HkbSt.mk [(0, true)] 0) :=
  is_subtype_irreflexive envDB 1 0 (HkbSt.mk [] 0) (HkbSt.mk [(0, true)] 0)
    [0] rfl rfl rfl
    (fun l hl => by
      injection hl with h
      subst h
      exact ⟨rfl, by simp⟩)

/-- C9 (totality violation): in an environment with a class whose single
base expression yields no candidates and terminates cleanly, safe_infer
raises StopIteration, and the exception propagates uncaught through the
public operations has_known_bases and is_subtype instead of an Unknown or
absence result being returned. -/
theorem totality_violation :
    has_known_bases env9 1 0 (HkbSt.mk [] 0)
      = Except.error Exn.stopIteration ∧
    is_subtype env9 2 0 0 (HkbSt.mk [] 0)
      = Except.error Exn.stopIteration := ⟨rfl, rfl⟩

/-- When every bound-method candidate terminates cleanly, the search
coincides with the specified first-match enumeration. -/
theorem indexSearch_clean (l : List IndexCand)
    (hc : ∀ c ∈ l, cleanCand c = true) :
    indexSearch l = specResolveIndexValue l := by
  induction l with
  | nil => rfl
  | cons c rest ih =>
    have hcrest : ∀ c2 ∈ rest, cleanCand c2 = true :=
      fun c2 h2 => hc c2 (List.mem_cons_of_mem c h2)
    cases c with
    | notMethod => simp [indexSearch, specResolveIndexValue, ih hcrest]
    | boundMethod rs =>
      have hclean := hc _ (List.mem_cons_self _ _)
      rcases hv : indexFromResults rs.yields with _ | v
      · rcases hf : rs.final with _ | _
        · simp [indexSearch, specResolveIndexValue, hv, hf, ih hcrest]
        · rw [cleanCand, hf] at hclean
          exact absurd hclean (by simp)
      · simp [indexSearch, specResolveIndexValue, hv]

/-- When no yielded call result qualifies, the search returns none however
the sequences terminate. -/
theorem indexSearch_none (l : List IndexCand)
    (hn : specResolveIndexValue l = none) : indexSearch l = none := by
  induction l with
  | nil => rfl
  | cons c rest ih =>
    cases c with
    | notMethod =>
      rw [specResolveIndexValue] at hn
      simp [indexSearch, ih hn]
    | boundMethod rs =>
      rcases hv : indexFromResults rs.yields with _ | v
      · simp only [specResolveIndexValue, hv] at hn
        rcases hf : rs.final with _ | _
        · simp [indexSearch, hv, hf, ih hn]
        · simp [indexSearch, hv, hf]
      · simp [specResolveIndexValue, hv] at hn

/-- C7: class_instance_as_index returns the first integer-literal
call-result candidate in enumeration order (skipping non-bound-method
attribute candidates) whenever every bound-method candidate's call-result
sequence terminates cleanly, and returns absence, never an error, whenever
no yielded candidate qualifies.  Concretely: a protocol method returning
the literal 42 yields 42; one returning a non-integer literal yields
absence; an attribute lookup that fails outright yields absence. -/
theorem class_instance_as_index_first_int (attr : InferSeq IndexCand) :
    ((∀ c ∈ attr.yields, cleanCand c = true) →
      class_instance_as_index attr = specResolveIndexValue attr.yields) ∧
    (specResolveIndexValue attr.yields = none →
      class_instance_as_index attr = none) ∧
    class_instance_as_index
      (InferSeq.mk [IndexCand.boundMethod
        (InferSeq.mk [CallResult.constV (ConstVal.intV 42)] StreamEnd.done)]
        StreamEnd.done) = some (ConstVal.intV 42) ∧
    class_instance_as_index
      (InferSeq.mk [IndexCand.boundMethod
        (InferSeq.mk [CallResult.constV (ConstVal.strV "x")] StreamEnd.done)]
        StreamEnd.done) = none ∧
    class_instance_as_index (InferSeq.mk ([] : List IndexCand) StreamEnd.error)
      = none :=
  ⟨fun hc => indexSearch_clean attr.yields hc,
   fun hn => indexSearch_none attr.yields hn, rfl, rfl, rfl⟩

/-- C7 witness: the clean-termination characterisation applied to the
instance whose protocol method returns the literal 42. -/
theorem class_instance_as_index_first_int_witness :
    class_instance_as_index
      (InferSeq.mk [IndexCand.boundMethod
        (InferSeq.mk [CallResult.constV (ConstVal.intV 42)] StreamEnd.done)]
        StreamEnd.done)
      = specResolveIndexValue
        [IndexCand.boundMethod
          (InferSeq.mk [CallResult.constV (ConstVal.intV 42)] StreamEnd.done)] :=
  (class_instance_as_index_first_int
    (InferSeq.mk [IndexCand.boundMethod
      (InferSeq.mk [CallResult.constV (ConstVal.intV 42)] StreamEnd.done)]
      StreamEnd.done)).1 (by decide)

end AstroidHelpers
